import Mathlib

/-!
Shallow embedding of the lancelot application launcher (src/main.rs).

Strings from the Rust side are modelled as `List Char`.  Rust's
`str::split_whitespace` is modelled by `splitWhitespace` below (splitting on
the Unicode White_Space code points, yielding the nonempty maximal runs of
non-whitespace characters), `Vec::join(" ")` by `joinSpace`, and
`str::contains`/`str::starts_with` by `strContains`/`startsWithPercent`.

The descriptor key lookup (`entry.name`, `entry.exec`, `entry.icon`) lives in
the external `freedesktop_desktop_entry` crate; those parts are modelled from
the spec and marked as such in their doc comments.  The icon pipeline's
external collaborators (icon-theme lookup, file decode, texture upload) are
modelled as a single oracle `decode` parameter, as the spec's stub-decoder
instrumentation suggests.
-/

/-- Rust's `char::is_whitespace` (the Unicode White_Space property),
used by `str::split_whitespace`. -/
def isWs (c : Char) : Bool :=
  c = '\x09' || c = '\x0A' || c = '\x0B' || c = '\x0C' || c = '\x0D' || c = ' ' ||
  c = '\x85' || c = '\xA0' || c = '\u1680' ||
  ('\u2000' ≤ c && c ≤ '\u200A') ||
  c = '\u2028' || c = '\u2029' || c = '\u202F' || c = '\u205F' || c = '\u3000'

/-- Accumulator worker for `splitWhitespace`; `acc` holds the current token
reversed. -/
def swAux : List Char → List Char → List (List Char)
  | [], acc => if acc = [] then [] else [acc.reverse]
  | c :: cs, acc =>
    if isWs c then
      if acc = [] then swAux cs [] else acc.reverse :: swAux cs []
    else
      swAux cs (c :: acc)

/-- Rust's `str::split_whitespace`: the maximal nonempty runs of
non-whitespace characters, in order. -/
def splitWhitespace (s : List Char) : List (List Char) :=
  swAux s []

/-- Rust's `Vec::<&str>::join(" ")`: interleave a single space between the
tokens. -/
def joinSpace : List (List Char) → List Char
  | [] => []
  | [t] => t
  | t :: u :: ts => t ++ ' ' :: joinSpace (u :: ts)

/-- Boolean list-prefix test (first argument is a leading segment of the
second). -/
def leadsWith : List Char → List Char → Bool
  | [], _ => true
  | _ :: _, [] => false
  | a :: as, b :: bs => a = b && leadsWith as bs

/-- Rust's `str::contains(substring)`: `needle` occurs contiguously in
`hay`. -/
def strContains (hay needle : List Char) : Bool :=
  match hay with
  | [] => leadsWith needle []
  | c :: t => leadsWith needle (c :: t) || strContains t needle

/-- The reserved field-code placeholders from `sanitize_command`
(src/main.rs line 26). -/
def placeholders : List (List Char) :=
  [['%', 'u'], ['%', 'U'], ['%', 'f'], ['%', 'F'], ['%', 'd'], ['%', 'D'],
   ['%', 'n'], ['%', 'N'], ['%', 'i'], ['%', 'c'], ['%', 'k']]

/-- The filter applied to each token by `sanitize_command`: keep the token
unless it contains one of the placeholders (src/main.rs lines 30-34). -/
def keepToken (part : List Char) : Bool :=
  !(placeholders.any fun ph => strContains part ph)

/-- `sanitize_command` (src/main.rs lines 24-38): split on whitespace, drop
every token containing a placeholder, rejoin with single spaces. -/
def sanitize_command (command : List Char) : List Char :=
  joinSpace ((splitWhitespace command).filter keepToken)

/-- Rust's `str::starts_with('%')` on a token, as used in
`parse_desktop_entry` (src/main.rs line 83). -/
def startsWithPercent : List Char → Bool
  | '%' :: _ => true
  | _ => false

/-- The parse-time Exec sanitization inside `parse_desktop_entry`
(src/main.rs lines 80-85): drop every whitespace-delimited token that starts
with the character `%`, rejoin with single spaces. -/
def sanitizeExec (command : List Char) : List Char :=
  joinSpace ((splitWhitespace command).filter fun part => !(startsWithPercent part))

/-- `AppInfo` (src/main.rs lines 48-53). -/
structure AppInfo where
  name : List Char
  command : List Char
  icon : Option (List Char)
deriving DecidableEq

/-- Modelled from the spec (section 4.1/6): a parsed descriptor is a sequence
of `Key=Value` pairs; this lookup returns the value of the first pair whose
key matches.  It stands in for the key lookup of the external
`freedesktop_desktop_entry` crate, which is not part of this repository. -/
def lookupKey : List (List Char × List Char) → List Char → Option (List Char)
  | [], _ => none
  | (a, v) :: rest, k => if a = k then some v else lookupKey rest k

/-- Modelled from the spec (section 4.1): split the raw descriptor text into
lines at newline characters (the `Key=Value` line format of the external
descriptor parser, which is not part of this repository). -/
def splitLinesAux : List Char → List Char → List (List Char)
  | [], acc => [acc.reverse]
  | c :: cs, acc =>
    if c = '\n' then acc.reverse :: splitLinesAux cs [] else splitLinesAux cs (c :: acc)

/-- Modelled from the spec (section 4.1): parse one descriptor line; lines
starting with `#` are comments and malformed lines (no `=`) are skipped. -/
def parseLine : List Char → Option (List Char × List Char)
  | [] => none
  | c :: cs =>
    if c = '#' then none
    else
      match (c :: cs).dropWhile (fun x => x ≠ '=') with
      | [] => none
      | _ :: v => some ((c :: cs).takeWhile (fun x => x ≠ '='), v)

/-- Modelled from the spec (section 4.1): the raw text of one descriptor as a
list of `Key=Value` pairs, comments and malformed lines skipped.  Stands in
for the external `freedesktop_desktop_entry` crate's file parsing. -/
def parseDescriptor (text : List Char) : List (List Char × List Char) :=
  (splitLinesAux text []).filterMap parseLine

/-- Modelled from the spec (section 4.1): `entry.name(locales)` — prefer
`Name[<locale>]` in caller-supplied preference order, falling back to the
bare `Name` key. -/
def entryName (pairs : List (List Char × List Char)) (locales : List (List Char)) :
    Option (List Char) :=
  match locales.findSome? (fun l => lookupKey pairs ("Name[".toList ++ l ++ [']'])) with
  | some v => some v
  | none => lookupKey pairs "Name".toList

/-- `parse_desktop_entry` (src/main.rs lines 72-92): require a resolved name
and a resolved Exec value, keep the optional icon, and store the Exec value
with every `%`-initial token stripped. -/
def parse_desktop_entry (pairs : List (List Char × List Char))
    (locales : List (List Char)) : Option AppInfo :=
  match entryName pairs locales with
  | none => none
  | some name =>
    match lookupKey pairs "Exec".toList with
    | none => none
    | some command =>
      some { name := name, command := sanitizeExec command,
             icon := lookupKey pairs "Icon".toList }

/-- `load_desktop_files` (src/main.rs lines 57-69): parse every discovered
entry, keeping exactly the successful parses, in order.  The directory
iteration itself is external; it is abstracted as the list of discovered
descriptors. -/
def load_desktop_files (entries : List (List (List Char × List Char)))
    (locales : List (List Char)) : List AppInfo :=
  entries.filterMap (fun e => parse_desktop_entry e locales)

/-- Association-list lookup modelling `HashMap::get` on the icon cache. -/
def lookupA {τ : Type} : List (List Char × τ) → List Char → Option τ
  | [], _ => none
  | (a, t) :: rest, k => if k = a then some t else lookupA rest k

/-- `load_icon` (src/main.rs lines 95-129).  The external resolution pipeline
(icon-theme lookup, file open, image decode, texture upload) is modelled as
the oracle `decode`.  Returns the result, the cache after the call, and the
number of decode attempts performed by the call. -/
def load_icon {τ : Type} (decode : List Char → Option τ)
    (cache : List (List Char × τ)) (iconName : List Char) :
    Option τ × List (List Char × τ) × Nat :=
  match lookupA cache iconName with
  | some t => (some t, cache, 0)
  | none =>
    match decode iconName with
    | some t => (some t, (iconName, t) :: cache, 1)
    | none => (none, cache, 1)

/-- The observable launch step taken by `MyApp::update` (src/main.rs lines
186-197).  The code's only launch action is `Command::new(c).spawn()`;
`emptyCommandError` has no counterpart in the code and exists to state the
spec's `LaunchError::EmptyCommand` claim. -/
inductive LaunchStep where
  | spawnCalled (program : List Char) (args : List (List Char)) : LaunchStep
  | emptyCommandError : LaunchStep
deriving DecidableEq

/-- The launch branch of `MyApp::update` (src/main.rs lines 186-197): the
selected raw command is passed through `sanitize_command`, and the whole
resulting string is handed to `Command::new(..).spawn()` as the program,
with no separate arguments and no emptiness check. -/
def launchSelected (selected : List Char) : LaunchStep :=
  LaunchStep.spawnCalled (sanitize_command selected) []

theorem swAux_nonws_append (t : List Char) (h : ∀ c ∈ t, isWs c = false) :
    ∀ rest acc : List Char, swAux (t ++ rest) acc = swAux rest (t.reverse ++ acc) := by
  induction t with
  | nil => intro rest acc; simp
  | cons c t ih =>
    intro rest acc
    have hc : isWs c = false := h c (List.mem_cons_self c t)
    simp only [List.cons_append, swAux, hc, Bool.false_eq_true, if_false, List.append_eq]
    rw [ih (fun x hx => h x (List.mem_cons_of_mem c hx)) rest (c :: acc)]
    simp

theorem swAux_good (s : List Char) :
    ∀ acc, (∀ c ∈ acc, isWs c = false) →
      ∀ t ∈ swAux s acc, t ≠ [] ∧ ∀ c ∈ t, isWs c = false := by
  induction s with
  | nil =>
    intro acc hacc t ht
    by_cases h0 : acc = []
    · simp [swAux, h0] at ht
    · simp only [swAux, h0, if_false] at ht
      obtain rfl : t = acc.reverse := by simpa using ht
      refine ⟨by simpa using h0, fun c hc => hacc c ?_⟩
      simpa using hc
  | cons c s ih =>
    intro acc hacc t ht
    cases hws : isWs c with
    | true =>
      simp only [swAux, hws, if_true] at ht
      by_cases h0 : acc = []
      · rw [if_pos h0] at ht
        exact ih [] (by simp) t ht
      · rw [if_neg h0] at ht
        rcases List.mem_cons.mp ht with rfl | ht2
        · refine ⟨by simpa using h0, fun x hx => hacc x ?_⟩
          simpa using hx
        · exact ih [] (by simp) t ht2
    | false =>
      simp only [swAux, hws, Bool.false_eq_true, if_false] at ht
      refine ih (c :: acc) ?_ t ht
      intro x hx
      rcases List.mem_cons.mp hx with rfl | hx2
      · exact hws
      · exact hacc x hx2

theorem splitWhitespace_good (s : List Char) :
    ∀ t ∈ splitWhitespace s, t ≠ [] ∧ ∀ c ∈ t, isWs c = false :=
  swAux_good s [] (by simp)

theorem splitWhitespace_joinSpace (ts : List (List Char))
    (h : ∀ t ∈ ts, t ≠ [] ∧ ∀ c ∈ t, isWs c = false) :
    splitWhitespace (joinSpace ts) = ts := by
  induction ts with
  | nil => rfl
  | cons t ts ih =>
    obtain ⟨ht, hws⟩ := h t (List.mem_cons_self t ts)
    cases ts with
    | nil =>
      show swAux (joinSpace [t]) [] = [t]
      have : joinSpace [t] = t ++ [] := by simp [joinSpace]
      rw [this, swAux_nonws_append t hws [] []]
      simp [swAux, ht]
    | cons u ts2 =>
      show swAux (joinSpace (t :: u :: ts2)) [] = t :: u :: ts2
      have hj : joinSpace (t :: u :: ts2) = t ++ ' ' :: joinSpace (u :: ts2) := rfl
      rw [hj, swAux_nonws_append t hws (' ' :: joinSpace (u :: ts2)) []]
      have hsp : isWs ' ' = true := by decide
      have hne : t.reverse ≠ [] := by simpa using ht
      simp only [List.append_nil, swAux, hsp, if_true, hne, if_false, List.reverse_reverse]
      show t :: splitWhitespace (joinSpace (u :: ts2)) = t :: u :: ts2
      rw [ih (fun x hx => h x (List.mem_cons_of_mem t hx))]

theorem splitWhitespace_joinSpace_filter (p : List Char → Bool) (c : List Char) :
    splitWhitespace (joinSpace ((splitWhitespace c).filter p)) =
      (splitWhitespace c).filter p := by
  apply splitWhitespace_joinSpace
  intro t ht
  exact splitWhitespace_good c t (List.mem_of_mem_filter ht)

/-- C1: `sanitize_command` removes exactly the whitespace-delimited tokens
containing a reserved placeholder: its output splits back into the filtered
token list (hence preserves relative order, being a sublist of the input's
tokens), no output token contains any reserved placeholder, and the output is
the remaining tokens rejoined with single spaces. -/
theorem sanitize_command_correct (c : List Char) :
    splitWhitespace (sanitize_command c) = (splitWhitespace c).filter keepToken ∧
    (splitWhitespace (sanitize_command c)).Sublist (splitWhitespace c) ∧
    (∀ t ∈ splitWhitespace (sanitize_command c),
      ∀ ph ∈ placeholders, strContains t ph = false) ∧
    sanitize_command c = joinSpace ((splitWhitespace c).filter keepToken) := by
  have h1 : splitWhitespace (sanitize_command c) = (splitWhitespace c).filter keepToken :=
    splitWhitespace_joinSpace_filter keepToken c
  refine ⟨h1, ?_, ?_, rfl⟩
  · rw [h1]
    exact List.filter_sublist _
  · intro t ht ph hph
    rw [h1] at ht
    have hk : keepToken t = true := (List.mem_filter.mp ht).2
    have hany : (placeholders.any fun q => strContains t q) = false := by
      simpa [keepToken] using hk
    simpa using List.any_eq_false.mp hany ph hph

/-- Witness for C1 at the spec scenario command "vlc %U --fullscreen". -/
theorem sanitize_command_correct_witness :
    strContains "vlc".toList ['%', 'U'] = false :=
  (sanitize_command_correct "vlc %U --fullscreen".toList).2.2.1 "vlc".toList (by decide)
    ['%', 'U'] (by decide)

/-- C8: `sanitize_command` is idempotent. -/
theorem sanitize_command_idem (c : List Char) :
    sanitize_command (sanitize_command c) = sanitize_command c := by
  have h1 : splitWhitespace (sanitize_command c) = (splitWhitespace c).filter keepToken :=
    splitWhitespace_joinSpace_filter keepToken c
  show joinSpace ((splitWhitespace (sanitize_command c)).filter keepToken) = sanitize_command c
  rw [h1, List.filter_eq_self.mpr (fun a ha => (List.mem_filter.mp ha).2)]
  rfl

/-- C3: `parse_desktop_entry` rejects (returns `none`) whenever the name or
the Exec value fails to resolve, and otherwise produces the full record even
when the Icon key is absent — a missing Icon alone never causes rejection. -/
theorem parse_desktop_entry_requires_name_exec :
    ∀ pairs locales,
      ((entryName pairs locales = none ∨ lookupKey pairs "Exec".toList = none) →
        parse_desktop_entry pairs locales = none) ∧
      (∀ n e, entryName pairs locales = some n →
        lookupKey pairs "Exec".toList = some e →
        parse_desktop_entry pairs locales =
          some { name := n, command := sanitizeExec e,
                 icon := lookupKey pairs "Icon".toList }) := by
  intro pairs locales
  constructor
  · rintro (h | h)
    · unfold parse_desktop_entry
      rw [h]
    · cases he : entryName pairs locales with
      | none => unfold parse_desktop_entry; rw [he]
      | some n => unfold parse_desktop_entry; rw [he, h]
  · intro n e hn hx
    unfold parse_desktop_entry
    rw [hn, hx]

/-- Witness for C3: the descriptor `Exec=foo` (no Name key, no Icon key) is
rejected. -/
theorem parse_desktop_entry_requires_name_exec_witness :
    parse_desktop_entry (parseDescriptor "Exec=foo".toList) [] = none :=
  (parse_desktop_entry_requires_name_exec (parseDescriptor "Exec=foo".toList) []).1
    (Or.inl (by decide))

/-- C9: the scenario descriptor `Name=Firefox\nExec=firefox %u\nIcon=firefox`
parses to the record with name "Firefox", command "firefox" (the `%u`
placeholder stripped at parse time) and icon "firefox". -/
theorem firefox_scenario :
    parse_desktop_entry
        (parseDescriptor "Name=Firefox\nExec=firefox %u\nIcon=firefox".toList) [] =
      some { name := "Firefox".toList, command := "firefox".toList,
             icon := some "firefox".toList } := by
  decide

/-- C10: the parse-time sanitization drops every token beginning with `%`, so
no token of a stored record's command starts with `%`; it is stricter than
the reserved-placeholder list, witnessed by `%v`, which `sanitizeExec` drops
although `keepToken` (the launch-time reserved-list filter) keeps it. -/
theorem parse_sanitize_stricter :
    (∀ execVal t, t ∈ splitWhitespace (sanitizeExec execVal) →
      startsWithPercent t = false) ∧
    (∀ pairs locales r, parse_desktop_entry pairs locales = some r →
      ∀ t ∈ splitWhitespace r.command, startsWithPercent t = false) ∧
    sanitizeExec "foo %v".toList = "foo".toList ∧
    keepToken ['%', 'v'] = true ∧
    sanitize_command "foo %v".toList = "foo %v".toList := by
  have main : ∀ execVal t, t ∈ splitWhitespace (sanitizeExec execVal) →
      startsWithPercent t = false := by
    intro execVal t ht
    have h1 : splitWhitespace (sanitizeExec execVal) =
        (splitWhitespace execVal).filter (fun part => !(startsWithPercent part)) :=
      splitWhitespace_joinSpace_filter _ execVal
    rw [h1] at ht
    simpa using (List.mem_filter.mp ht).2
  refine ⟨main, ?_, by decide, by decide, by decide⟩
  intro pairs locales r hr t ht
  unfold parse_desktop_entry at hr
  cases he : entryName pairs locales with
  | none => rw [he] at hr; cases hr
  | some n =>
    rw [he] at hr
    cases hx : lookupKey pairs "Exec".toList with
    | none => rw [hx] at hr; cases hr
    | some e =>
      rw [hx] at hr
      cases hr
      exact main e t ht

/-- Witness for C10 at the Exec value "foo %v". -/
theorem parse_sanitize_stricter_witness :
    startsWithPercent "foo".toList = false :=
  parse_sanitize_stricter.1 "foo %v".toList "foo".toList (by decide)

/-- C2 fails as stated: the descriptor `Name=Foo\nExec=%u` parses
successfully to a record whose command is the empty string, and the loader
stores that record — no emptiness check discards it. -/
theorem empty_command_record_stored :
    parse_desktop_entry (parseDescriptor "Name=Foo\nExec=%u".toList) [] =
      some { name := "Foo".toList, command := [], icon := none } ∧
    ({ name := "Foo".toList, command := [], icon := none } : AppInfo) ∈
      load_desktop_files [parseDescriptor "Name=Foo\nExec=%u".toList] [] := by
  decide

/-- C2 (amended): every stored record comes from a descriptor whose Name and
Exec keys both resolved; its command is the `%`-token-stripped Exec value,
which may be empty, since no emptiness check is performed. -/
theorem load_desktop_files_record_origin :
    ∀ entries locales r, r ∈ load_desktop_files entries locales →
      ∃ pairs, pairs ∈ entries ∧
        parse_desktop_entry pairs locales = some r ∧
        ∃ n e, entryName pairs locales = some n ∧
          lookupKey pairs "Exec".toList = some e ∧
          r.name = n ∧ r.command = sanitizeExec e := by
  intro entries locales r hr
  obtain ⟨pairs, hmem, hp⟩ := List.mem_filterMap.mp hr
  refine ⟨pairs, hmem, hp, ?_⟩
  unfold parse_desktop_entry at hp
  cases he : entryName pairs locales with
  | none => rw [he] at hp; cases hp
  | some n =>
    rw [he] at hp
    cases hx : lookupKey pairs "Exec".toList with
    | none => rw [hx] at hp; cases hp
    | some e =>
      rw [hx] at hp
      cases hp
      exact ⟨n, e, rfl, rfl, rfl, rfl⟩

/-- Witness for C2 (amended) at a one-descriptor directory. -/
theorem load_desktop_files_record_origin_witness :
    ∃ pairs, pairs ∈ [parseDescriptor "Name=Foo\nExec=bar".toList] ∧
      parse_desktop_entry pairs [] =
        some { name := "Foo".toList, command := "bar".toList, icon := none } ∧
      ∃ n e, entryName pairs [] = some n ∧
        lookupKey pairs "Exec".toList = some e ∧
        ({ name := "Foo".toList, command := "bar".toList, icon := none } : AppInfo).name = n ∧
        ({ name := "Foo".toList, command := "bar".toList, icon := none } : AppInfo).command =
          sanitizeExec e :=
  load_desktop_files_record_origin [parseDescriptor "Name=Foo\nExec=bar".toList] []
    { name := "Foo".toList, command := "bar".toList, icon := none } (by decide)

/-- C6 fails as stated: the all-placeholder command "%u" sanitizes to the
empty string, and the launch branch passes that empty string straight to the
spawn primitive — it is not turned into an empty-command error. -/
theorem empty_command_spawned :
    sanitize_command "%u".toList = [] ∧
    launchSelected "%u".toList = LaunchStep.spawnCalled [] [] ∧
    launchSelected "%u".toList ≠ LaunchStep.emptyCommandError := by
  decide

/-- C6 (amended): a command all of whose tokens contain a reserved
placeholder sanitizes to the empty string, and the launch path invokes the
spawn primitive with that empty program string — no empty-command check
exists. -/
theorem all_placeholder_command_launch :
    ∀ c, (∀ t ∈ splitWhitespace c, keepToken t = false) →
      sanitize_command c = [] ∧ launchSelected c = LaunchStep.spawnCalled [] [] := by
  intro c h
  have hf : (splitWhitespace c).filter keepToken = [] := by
    rw [List.filter_eq_nil_iff]
    intro a ha
    simp [h a ha]
  have h1 : sanitize_command c = [] := by
    show joinSpace ((splitWhitespace c).filter keepToken) = []
    rw [hf]
    rfl
  refine ⟨h1, ?_⟩
  show LaunchStep.spawnCalled (sanitize_command c) [] = LaunchStep.spawnCalled [] []
  rw [h1]

/-- Witness for C6 (amended) at the command "%u %F". -/
theorem all_placeholder_command_launch_witness :
    sanitize_command "%u %F".toList = [] ∧
    launchSelected "%u %F".toList = LaunchStep.spawnCalled [] [] :=
  all_placeholder_command_launch "%u %F".toList (by decide)

/-- C7: evaluated at the sanitized command "vlc --fullscreen", the launch
branch hands the entire multi-token string to the spawn primitive as the
program name with zero separate arguments, not split into program and
argument. -/
theorem spawn_receives_whole_string :
    launchSelected "vlc --fullscreen".toList =
      LaunchStep.spawnCalled "vlc --fullscreen".toList [] ∧
    launchSelected "vlc --fullscreen".toList ≠
      LaunchStep.spawnCalled "vlc".toList ["--fullscreen".toList] := by
  decide

/-- C4 fails as stated: with a decoder that always fails, two successive
requests for the same reference each perform a decode attempt — the failed
resolution is retried rather than attempted at most once per lifetime. -/
theorem failed_icon_decoded_twice :
    (load_icon (fun _ => (none : Option Unit)) [] "x".toList).2.2 = 1 ∧
    (load_icon (fun _ => (none : Option Unit))
        (load_icon (fun _ => (none : Option Unit)) [] "x".toList).2.1
        "x".toList).2.2 = 1 := by
  decide

/-- C4 (amended): once a request for a reference resolves successfully, a
repeated request is answered from the memoization table with zero decode
attempts and an unchanged cache. -/
theorem load_icon_success_no_second_decode :
    ∀ (τ : Type) (decode : List Char → Option τ) (cache : List (List Char × τ))
      (name : List Char) (t : τ) (c2 : List (List Char × τ)) (k : Nat),
      load_icon decode cache name = (some t, c2, k) →
      load_icon decode c2 name = (some t, c2, 0) := by
  intro τ decode cache name t c2 k h
  unfold load_icon at h
  cases hl : lookupA cache name with
  | some t0 =>
    rw [hl] at h
    simp only [Prod.mk.injEq] at h
    obtain ⟨ht, rfl, -⟩ := h
    obtain rfl : t0 = t := by simpa using ht
    unfold load_icon
    rw [hl]
  | none =>
    rw [hl] at h
    cases hd : decode name with
    | some t1 =>
      rw [hd] at h
      simp only [Prod.mk.injEq] at h
      obtain ⟨ht, rfl, -⟩ := h
      obtain rfl : t1 = t := by simpa using ht
      unfold load_icon
      simp [lookupA]
    | none =>
      rw [hd] at h
      simp at h

/-- Witness for C4 (amended): after a successful resolution of "x", the
second request returns the cached texture with zero decode attempts. -/
theorem load_icon_success_no_second_decode_witness :
    load_icon (fun _ => (some () : Option Unit)) [("x".toList, ())] "x".toList =
      (some (), [("x".toList, ())], 0) :=
  load_icon_success_no_second_decode Unit (fun _ => some ()) [] "x".toList ()
    [("x".toList, ())] 1 (by decide)

/-- C5: the memoization table is only ever extended by inserting the
successfully decoded texture keyed by the original reference string; on a
failed decode the cache is unchanged, and the next request for that reference
misses the cache and performs another decode attempt. -/
theorem load_icon_cache_policy :
    ∀ (τ : Type) (decode : List Char → Option τ) (cache : List (List Char × τ))
      (name : List Char),
      ((load_icon decode cache name).2.1 = cache ∨
        (∃ t, decode name = some t ∧ lookupA cache name = none ∧
          (load_icon decode cache name).2.1 = (name, t) :: cache)) ∧
      (lookupA cache name = none → decode name = none →
        load_icon decode cache name = (none, cache, 1) ∧
        load_icon decode (load_icon decode cache name).2.1 name = (none, cache, 1)) := by
  intro τ decode cache name
  constructor
  · cases hl : lookupA cache name with
    | some t0 =>
      left
      unfold load_icon
      rw [hl]
    | none =>
      cases hd : decode name with
      | some t1 =>
        right
        refine ⟨t1, rfl, rfl, ?_⟩
        unfold load_icon
        rw [hl, hd]
      | none =>
        left
        unfold load_icon
        rw [hl, hd]
  · intro hl hd
    have h1 : load_icon decode cache name = (none, cache, 1) := by
      unfold load_icon
      rw [hl, hd]
    refine ⟨h1, ?_⟩
    rw [h1]
    exact h1

/-- Witness for C5 at a failing decoder: the failed resolution leaves the
cache empty and costs one decode attempt. -/
theorem load_icon_cache_policy_witness :
    load_icon (fun _ => (none : Option Unit)) [] "x".toList = (none, [], 1) :=
  ((load_icon_cache_policy Unit (fun _ => none) [] "x".toList).2 (by decide) (by decide)).1
